import Mathlib

/-!
# blobz mint handler: a verification development

A shallow embedding of `minting/web/mint.go` and `minting/web/json.go`.

* Byte slices are `List Byte`; Go `int` offsets are `Nat` (every offset that
  occurs is bounded by a slice length, far below `2^63`).
* Code that lives outside the repository (the chain client, the KZG library,
  the key and signature routines, the JSON decoder) enters through the fields
  of `Env`.
* The one floating-point expression, `uint64(float64(gas) * 1.2)`, is computed
  exactly over `Nat`: a double is kept as its value times `2^52`, and each
  operation rounds to 53 significant bits, to nearest and ties to even.
* A Go run-time panic (index or slice bound out of range, nil dereference)
  is an explicit outcome.
-/

namespace Blobz

/-! ## The payload chunker (`mint.go`, the `write32` loop) -/

/-- One byte. -/
abbrev Byte := Fin 256

/-- Length of `kzg4844.Blob`, which go-ethereum declares as `[131072]byte`
(4096 field elements of 32 bytes). -/
def blobLen : Nat := 131072

/-- The variables the closure `write32` captures and mutates: the slice `b`
over the blob, the write offset and the read offset. -/
structure ChunkState where
  b : List Byte
  woffset : Nat
  roffset : Nat
deriving DecidableEq, Repr

/-- Go's builtin `copy(b[lo:hi], src)`: it copies `min (hi - lo) (len src)`
bytes to `b` starting at `lo` and leaves every other byte of `b` alone. -/
def copySlice (b : List Byte) (lo hi : Nat) (src : List Byte) : List Byte :=
  let n := min (hi - lo) src.length
  b.take lo ++ src.take n ++ b.drop (lo + n)

/-- The closure `write32` of `minter.handle`; `blob` is `req.Blob`.
`none` is a run-time panic: the index expression `b[woffset]` needs
`woffset < len(b)`, a slice expression `s[lo:hi]` needs `lo ≤ hi ≤ len(s)`
(Go checks `hi` against the capacity, which is at least the length, and for
`b := blob[:]` equals it). -/
def write32 (blob : List Byte) (s : ChunkState) : Option ChunkState :=
  if s.woffset < s.b.length then
    let b1 := s.b.set s.woffset 0
    let woffset := s.woffset + 1
    let wend := woffset + 31
    let rend := if s.roffset + 31 > blob.length then blob.length else s.roffset + 31
    if woffset ≤ wend ∧ wend ≤ b1.length ∧ s.roffset ≤ rend ∧ rend ≤ blob.length then
      some
        { b := copySlice b1 woffset wend ((blob.take rend).drop s.roffset)
          woffset := wend
          roffset := rend }
    else none
  else none

/-- How a run of the chunking loop ends. -/
inductive LoopOutcome where
  | finished (s : ChunkState) (iterations : Nat)
  | panicked
  | outOfFuel
deriving DecidableEq, Repr

/-- The loop `for roffset < len(req.Blob) && woffset < len(b)-32 { write32() }`,
counting the calls of `write32` made so far in `n`.  `len(b)-32` is a Go
`int`; on the blob it is not negative, and for a shorter `b` both the Go
difference and the truncated one make the comparison false. -/
def chunkLoop (blob : List Byte) : Nat → ChunkState → Nat → LoopOutcome
  | fuel, s, n =>
    if s.roffset < blob.length ∧ s.woffset < s.b.length - 32 then
      match fuel with
      | 0 => LoopOutcome.outOfFuel
      | fuel + 1 =>
        match write32 blob s with
        | none => LoopOutcome.panicked
        | some s' => chunkLoop blob fuel s' (n + 1)
    else LoopOutcome.finished s n

/-- State at loop entry over a zeroed array of `len` bytes: `var blob
kzg4844.Blob; b := blob[:]; woffset := 0; roffset := 0`. -/
def chunkInit (len : Nat) : ChunkState :=
  { b := List.replicate len 0, woffset := 0, roffset := 0 }

/-- The chunking loop of `minter.handle` run on `req.Blob`. The fuel, one unit
per 32-byte element of the blob, is never exhausted (`chunk_finishes`). -/
def chunk (payload : List Byte) : LoopOutcome :=
  chunkLoop payload (blobLen / 32) (chunkInit blobLen) 0

/-- The blob the loop leaves behind, when it finishes. -/
def chunkBlob (payload : List Byte) : Option (List Byte) :=
  match chunk payload with
  | LoopOutcome.finished s _ => some s.b
  | _ => none

/-- The non-padding bytes of the first `n` 32-byte elements of `b`, in element
order: bytes `1..31` of each element. -/
def payloadBytes : Nat → List Byte → List Byte
  | 0, _ => []
  | n + 1, b => (b.take 32).drop 1 ++ payloadBytes n (b.drop 32)

/-- Payload capacity of one blob as the claim counts it: 4096 elements of 31
payload bytes. -/
def blobCapacity : Nat := 4096 * 31

/-! ## Fee caps (`mint.go`, lines 89-94)

`*big.Int` values are mutable and may alias, so the fee block is run over an
explicit store of integer cells; a pointer is an index into the store. -/

/-- A store of `big.Int` objects. -/
abbrev BigStore := List Int

/-- Value of the `big.Int` behind pointer `p`. -/
def bigGet (st : BigStore) (p : Nat) : Int := st.getD p 0

/-- Allocation of a fresh `big.Int` holding `v`: `big.NewInt(v)`, and
`new(big.Int)` for `v = 0`. -/
def bigNew (st : BigStore) (v : Int) : BigStore × Nat := (st ++ [v], st.length)

/-- The method `z.Set(x)`: sets `z` to the value of `x`. -/
def bigSet (st : BigStore) (z x : Nat) : BigStore := st.set z (bigGet st x)

/-- The method `z.Mul(x, y)`: sets `z` to `x * y`. -/
def bigMul (st : BigStore) (z x y : Nat) : BigStore := st.set z (bigGet st x * bigGet st y)

/-- The method `z.Add(x, y)`: sets `z` to `x + y`. -/
def bigAdd (st : BigStore) (z x y : Nat) : BigStore := st.set z (bigGet st x + bigGet st y)

/-- The constant `params.GWei` of go-ethereum. -/
def GWei : Int := 1000000000

/-- What the fee block leaves behind: the store and the two new pointers. -/
structure FeeCaps where
  store : BigStore
  priorityFee : Nat
  maxFee : Nat
deriving DecidableEq, Repr

/-- Lines 89-91 of `minter.handle`, with `baseFee` the pointer `h.BaseFee`:
`priorityFee := big.NewInt(params.GWei)`,
`maxFee := new(big.Int).Set(h.BaseFee)`,
`maxFee.Mul(maxFee, big.NewInt(2)).Add(maxFee, priorityFee)`. -/
def feeCaps (st : BigStore) (baseFee : Nat) : FeeCaps :=
  let r1 := bigNew st GWei
  let priorityFee := r1.2
  let r2 := bigNew r1.1 0
  let maxFee := r2.2
  let st2 := bigSet r2.1 maxFee baseFee
  let r3 := bigNew st2 2
  let st3 := bigMul r3.1 maxFee maxFee r3.2
  let st4 := bigAdd st3 maxFee maxFee priorityFee
  { store := st4, priorityFee := priorityFee, maxFee := maxFee }

/-- The fee cap `maxFee` that `minter.handle` computes from a header whose
base fee is `b`: the fee block run on a store holding just that value. -/
def feeCap (b : Int) : Int :=
  let r := feeCaps [b] 0
  bigGet r.store r.maxFee

/-- The header's base fee after the fee block has run. -/
def baseFeeAfter (b : Int) : Int := bigGet (feeCaps [b] 0).store 0

/-! ## Call data (`mint.go`, lines 150-155) -/

/-- The type `common.Address`, `[20]byte`. -/
structure Address where
  bytes : List Byte
  size : bytes.length = 20
deriving DecidableEq

/-- The function selector of `mintTo()`. -/
def mintToSelector : List Byte := [0x75, 0x5E, 0xDD, 0x17]

/-- The call data: `data := []byte{0x75, 0x5E, 0xDD, 0x17}`, then
`for i := 0; i < 12; i++ { data = append(data, 0x00) }`, then
`data = append(data, destAddress.Bytes()...)`. -/
def callData (destAddress : Address) : List Byte :=
  let data := mintToSelector
  let data := (List.range 12).foldl (fun d _ => d ++ [0]) data
  data ++ destAddress.bytes

/-! ## The JSON envelope (`json.go`) -/

/-- The type `Error` of `json.go`. -/
structure Error where
  Code : Int
deriving DecidableEq, Repr

/-- The type `mintResponse` of `mint.go`. -/
structure mintResponse where
  Code : Int
  TxID : String
deriving DecidableEq, Repr

/-- A non-nil response value (`interface{}` holding a pointer to a struct) as
a handler can return it: an `*Error`, a `*mintResponse`, or a pointer to a
struct that has no field named `Code`. -/
inductive JsonValue where
  | err (e : Error)
  | mint (r : mintResponse)
  | noCode
deriving DecidableEq, Repr

/-- What `reflect.ValueOf(response).Elem().FieldByName("Code")` finds: the
field's value, or `none` when the field is not there (`IsValid()` false). -/
def codeField : JsonValue → Option Int
  | JsonValue.err e => some e.Code
  | JsonValue.mint r => some r.Code
  | JsonValue.noCode => none

/-- What a handler hands to the envelope: `(response, forLog, cacheControl)`;
a nil `response` is `none`. -/
structure Reply where
  response : Option JsonValue
  forLog : Option String
  cacheControl : Option String
deriving DecidableEq, Repr

/-- The effects of one `ServeHTTP` on the response writer and the request log:
the status passed to `w.WriteHeader` (if it was called), the headers added,
the value encoded into the body, and the `status` and `forLog` arguments of
the call of `LogRequest` (if it was called). -/
structure HttpEffects where
  writeHeader : Option Nat
  headers : List (String × String)
  body : Option JsonValue
  logged : Option (Int × Option String)
deriving DecidableEq, Repr

/-- The method `defaultHandler.ServeHTTP`, after `h.j.handle(r, w)` has
returned `reply`. -/
def ServeHTTP (reply : Reply) : HttpEffects :=
  match reply.response with
  | none => { writeHeader := none, headers := [], body := none, logged := none }
  | some response =>
    let code : Int :=
      match codeField response with
      | some c => c
      | none => 0
    let headers := [("Content-Type", "application/json")]
    let code : Int := if code = 0 then 1 else code
    if code ≠ 1 then
      { writeHeader := some 500, headers := headers, body := some response,
        logged := some (code, reply.forLog) }
    else
      let cc :=
        match reply.cacheControl with
        | none => "no-cache, no-store, must-revalidate"
        | some c => c
      { writeHeader := none, headers := headers ++ [("Cache-Control", cc)],
        body := some response, logged := some (code, reply.forLog) }

/-- The status line the client receives: net/http sends `200 OK` when the
handler never calls `WriteHeader`. -/
def httpStatus (e : HttpEffects) : Nat :=
  match e.writeHeader with
  | some s => s
  | none => 200

/-- What `json.NewDecoder(decodeReader(r, JSON_REQUEST_SIZE_LIMIT)).Decode`
does with the request body: it fills the message, or reports `io.EOF` (an
empty body), or reports another error (malformed JSON, size limit exceeded). -/
inductive DecodeResult (α : Type) where
  | decoded (message : α)
  | eof
  | failed
deriving DecidableEq, Repr

/-- The function `decode` of `json.go`: the error it returns (`nil` is `none`)
and the message afterwards; `zero` is the message before decoding. -/
def decode {α : Type} (zero : α) (body : DecodeResult α) : Option Error × α :=
  match body with
  | DecodeResult.decoded message => (none, message)
  | DecodeResult.eof => (none, zero)
  | DecodeResult.failed => (some { Code := 10 }, zero)

/-! ## Gas margin (`mint.go`, line 176)

The statement `gas = uint64(float64(gas) * 1.2)`. A non-negative double in
the range that occurs here is an integer with at most 53 significant bits
times a power of two; the values below are scaled so that they are natural
numbers. -/

/-- Number of binary digits of `n`, by repeated halving; `fuel` bounds the
number of halvings and `n` itself is always enough. -/
def bitLenNat : Nat → Nat → Nat
  | 0, _ => 0
  | fuel + 1, n => if n = 0 then 0 else bitLenNat fuel (n / 2) + 1

/-- The multiple of `2^s` nearest to `n`, for `s ≥ 1`; of two equally near
multiples the one with the even quotient. -/
def roundAt (s n : Nat) : Nat :=
  let q := n / 2 ^ s
  let r := n % 2 ^ s
  let half := 2 ^ (s - 1)
  if r > half ∨ (r = half ∧ q % 2 = 1) then (q + 1) * 2 ^ s else q * 2 ^ s

/-- The number with at most 53 significant bits nearest to `n`, ties to even:
the rounding of IEEE-754 binary64, which Go applies in `float64(gas)` and to
the product of two `float64` values. -/
def roundToDouble (n : Nat) : Nat :=
  let len := bitLenNat n n
  if len ≤ 53 then n else roundAt (len - 53) n

/-- The constant `1.2` as a `float64`, times `2^52`: the double nearest to
`6/5` is `5404319552844595 / 2^52`. -/
def onePointTwo : Nat := 5404319552844595

/-- The double `float64(gas) * 1.2`, times `2^52`: the conversion of `gas`
rounds, and so does the product of the two doubles. -/
def scaledDouble (gas : Nat) : Nat := roundToDouble (roundToDouble gas * onePointTwo)

/-- The new value of `gas` after line 176: the double truncated to an integer
when it is below `2^64`. Otherwise Go leaves the result of the conversion to
the implementation, and it is taken from `outOfRange`. -/
def gasLimit (outOfRange : Nat → Nat) (gas : Nat) : Nat :=
  let d := scaledDouble gas
  if d / 2 ^ 52 < 2 ^ 64 then d / 2 ^ 52 else outOfRange gas

/-! ## The mint handler (`mint.go`, `minter.handle`) -/

/-- The type `mintRequest`. -/
structure mintRequest where
  PKey : String
  Address : String
  Blob : List Byte
deriving DecidableEq

/-- The fields of `minter` other than the chain client, whose answers are in
`Env`. -/
structure minter where
  mintContract : Address
  chainID : Nat
deriving DecidableEq

/-- The two fields of `types.Header` the handler reads, both pointers
(`none` is nil). -/
structure Header where
  BaseFee : Option Int
  ExcessBlobGas : Option Nat
deriving DecidableEq

/-- The fields of `ethereum.CallMsg` the handler sets. -/
structure CallMsg where
  From : Address
  To : Address
  GasTipCap : Int
  GasFeeCap : Int
  BlobGasFeeCap : Int
  BlobHashes : List (List Byte)
  Data : List Byte
deriving DecidableEq

/-- The type `types.BlobTxSidecar`. -/
structure BlobTxSidecar where
  Blobs : List (List Byte)
  Commitments : List (List Byte)
  Proofs : List (List Byte)
deriving DecidableEq

/-- The fields of `types.BlobTx` the handler sets. -/
structure BlobTx where
  Nonce : Nat
  ChainID : Nat
  To : Address
  Data : List Byte
  Gas : Nat
  BlobHashes : List (List Byte)
  Sidecar : BlobTxSidecar
  GasTipCap : Nat
  GasFeeCap : Nat
  BlobFeeCap : Nat
deriving DecidableEq

/-- A transaction with its signature attached. -/
structure SignedTx where
  tx : BlobTx
  signature : List Byte
deriving DecidableEq

/-- The methods of the chain client `m.l1Client` the handler calls. -/
inductive ClientCall where
  | BalanceAt
  | HeaderByNumber
  | EstimateGas
  | NonceAt
  | SendTransaction
deriving DecidableEq, Repr

/-- Everything `minter.handle` obtains from outside the repository: the
outcome of decoding the request body, the go-ethereum helpers, the answers of
the chain client (`none` is a non-nil `err`), and what the platform makes of
a `float64` of `2^64` or more converted to `uint64`. -/
structure Env where
  body : DecodeResult mintRequest
  IsHexAddress : String → Bool
  HexToECDSA : String → Option (List Byte)
  PubkeyToAddress : List Byte → Address
  BalanceAt : Address → Option Int
  HeaderByNumber : Option Header
  CalcBlobFee : Nat → Int
  BlobToCommitment : List Byte → Option (List Byte)
  ComputeBlobProof : List Byte → List Byte → Option (List Byte)
  CalcBlobHashV1 : List Byte → List Byte
  HexToAddress : String → Address
  EstimateGas : CallMsg → Option Nat
  uint64OutOfRange : Nat → Nat
  NonceAt : Address → Option Nat
  signerHash : BlobTx → List Byte
  Sign : List Byte → List Byte → Option (List Byte)
  WithSignature : BlobTx → List Byte → Option SignedTx
  SendTransaction : SignedTx → Bool
  txHashHex : SignedTx → String

/-- How a call of `minter.handle` ends: it returns its three results, or it
panics. -/
inductive Outcome where
  | returned (reply : Reply)
  | panicked
deriving DecidableEq, Repr

/-- Outcome of `minter.handle` together with the chain-client calls it made,
in order. -/
structure HandleResult where
  outcome : Outcome
  calls : List ClientCall
deriving DecidableEq, Repr

/-- The statement `return &Error{Code: code}, nil, nil`. -/
def failWith (code : Int) (calls : List ClientCall) : HandleResult :=
  { outcome := Outcome.returned
      { response := some (JsonValue.err { Code := code }), forLog := none, cacheControl := none }
    calls := calls }

/-- The method `BitLen` of `big.Int`: the length of the absolute value in
bits. -/
def BitLen (x : Int) : Nat := bitLenNat x.natAbs x.natAbs

/-- The function `uint256.MustFromBig`: `none` is its overflow panic, raised
when the absolute value needs more than 256 bits; a negative value is taken
in two's complement. -/
def MustFromBig (x : Int) : Option Nat :=
  if x.natAbs < 2 ^ 256 then some (x % 2 ^ 256).toNat else none

/-- The text the handler substitutes for an empty `req.Blob`. -/
def defaultBlobText : String :=
  "I just minted $BLOBZ with proof-of-blob! Learn more at https://blobz.wtf"

/-- The conversion `[]byte(defaultBlobText)`; the text is ASCII. -/
def defaultBlobBytes : List Byte :=
  defaultBlobText.toList.map (fun c => Fin.ofNat c.toNat)

/-- Lines 158-223 of `minter.handle`: gas estimation with its margin, nonce
fetch, assembly of the transaction, signing, signature attachment and
submission. `calls` are the chain-client calls made before. -/
def handleSubmit (m : minter) (env : Env) (key : List Byte) (signerAddress : Address)
    (priorityFee maxFee blobFeeCap : Int) (hashes : List (List Byte)) (sidecar : BlobTxSidecar)
    (data : List Byte) (calls : List ClientCall) : HandleResult :=
  let calls := calls ++ [ClientCall.EstimateGas]
  match env.EstimateGas
      { From := signerAddress, To := m.mintContract, GasTipCap := priorityFee,
        GasFeeCap := maxFee, BlobGasFeeCap := blobFeeCap, BlobHashes := hashes, Data := data } with
  | none => failWith 10 calls
  | some gas =>
  let gas := gasLimit env.uint64OutOfRange gas
  let calls := calls ++ [ClientCall.NonceAt]
  match env.NonceAt signerAddress with
  | none => failWith 11 calls
  | some nonce =>
  match MustFromBig priorityFee with
  | none => { outcome := Outcome.panicked, calls := calls }
  | some tipCap =>
  match MustFromBig maxFee with
  | none => { outcome := Outcome.panicked, calls := calls }
  | some feeCap256 =>
  match MustFromBig blobFeeCap with
  | none => { outcome := Outcome.panicked, calls := calls }
  | some blobCap =>
  let message : BlobTx :=
    { Nonce := nonce, ChainID := m.chainID, To := m.mintContract, Data := data, Gas := gas,
      BlobHashes := hashes, Sidecar := sidecar, GasTipCap := tipCap, GasFeeCap := feeCap256,
      BlobFeeCap := blobCap }
  match env.Sign (env.signerHash message) key with
  | none => failWith 12 calls
  | some signature =>
  match env.WithSignature message signature with
  | none => failWith 13 calls
  | some signedTx =>
  let calls := calls ++ [ClientCall.SendTransaction]
  if !env.SendTransaction signedTx then failWith 14 calls else
  { outcome := Outcome.returned
      { response := some (JsonValue.mint { Code := 1, TxID := env.txHashHex signedTx })
        forLog := none, cacheControl := none }
    calls := calls }

/-- Lines 81-156 of `minter.handle`: header fetch, fee caps, default text,
chunking, commitment, proof, blob hash and call data; then `handleSubmit`.
A nil `h.BaseFee` or `h.ExcessBlobGas` is dereferenced, which panics; the two
loop outcomes other than `finished` do not occur (`chunk_finishes`). -/
def handleBuild (m : minter) (env : Env) (req : mintRequest) (key : List Byte)
    (signerAddress : Address) (calls : List ClientCall) : HandleResult :=
  let calls := calls ++ [ClientCall.HeaderByNumber]
  match env.HeaderByNumber with
  | none => failWith 7 calls
  | some h =>
  match h.BaseFee with
  | none => { outcome := Outcome.panicked, calls := calls }
  | some baseFee =>
  let fees := feeCaps [baseFee] 0
  let priorityFee := bigGet fees.store fees.priorityFee
  let maxFee := bigGet fees.store fees.maxFee
  match h.ExcessBlobGas with
  | none => { outcome := Outcome.panicked, calls := calls }
  | some excessBlobGas =>
  let blobFeeCap := env.CalcBlobFee excessBlobGas * 2
  let reqBlob := if req.Blob.length = 0 then defaultBlobBytes else req.Blob
  match chunk reqBlob with
  | LoopOutcome.panicked => { outcome := Outcome.panicked, calls := calls }
  | LoopOutcome.outOfFuel => { outcome := Outcome.panicked, calls := calls }
  | LoopOutcome.finished st _ =>
  let blob := st.b
  match env.BlobToCommitment blob with
  | none => failWith 8 calls
  | some c =>
  match env.ComputeBlobProof blob c with
  | none => failWith 9 calls
  | some proof =>
  let sidecar : BlobTxSidecar := { Blobs := [blob], Commitments := [c], Proofs := [proof] }
  let hashes := [env.CalcBlobHashV1 c]
  let destAddress := env.HexToAddress req.Address
  let data := callData destAddress
  handleSubmit m env key signerAddress priorityFee maxFee blobFeeCap hashes sidecar data calls

/-- The method `minter.handle`: lines 47-79 (decoding, validation of the
address and the key, the balance gate), then `handleBuild`. -/
def handle (m : minter) (env : Env) : HandleResult :=
  match decode { PKey := "", Address := "", Blob := [] } env.body with
  | (some err, _) =>
    { outcome := Outcome.returned
        { response := some (JsonValue.err err), forLog := none, cacheControl := none }
      calls := [] }
  | (none, req) =>
  if !env.IsHexAddress req.Address then failWith 2 [] else
  if req.PKey.utf8ByteSize = 0 then failWith 3 [] else
  match env.HexToECDSA req.PKey with
  | none => failWith 4 []
  | some key =>
  let signerAddress := env.PubkeyToAddress key
  let calls := [ClientCall.BalanceAt]
  match env.BalanceAt signerAddress with
  | none => failWith 5 calls
  | some ethBalance =>
  if BitLen ethBalance = 0 then failWith 6 calls else
  handleBuild m env req key signerAddress calls

/-- The `Code` field of the response `minter.handle` returns, when it returns
a response that has one. -/
def responseCode (r : HandleResult) : Option Int :=
  match r.outcome with
  | Outcome.returned reply =>
    match reply.response with
    | some v => codeField v
    | none => none
  | Outcome.panicked => none

/-- One request through `defaultHandler{j: minter}`: `ServeHTTP` calls
`handle` and acts on what it returns; `none` when `handle` panics, in which
case `ServeHTTP` writes and logs nothing. -/
def serveMint (m : minter) (env : Env) : Option HttpEffects :=
  match (handle m env).outcome with
  | Outcome.returned reply => some (ServeHTTP reply)
  | Outcome.panicked => none

/-! ## Reference encoding, used to describe the blob the loop builds -/

/-- A chunk of at most 31 payload bytes, padded with zeros to 31 bytes. -/
def pad31 (c : List Byte) : List Byte := c ++ List.replicate (31 - c.length) 0

/-- The first `j` elements of the encoding of `l`: each is a zero byte followed
by the next 31 bytes of `l`, padded with zeros. -/
def encodeElems : Nat → List Byte → List Byte
  | 0, _ => []
  | j + 1, l => (0 :: pad31 (l.take 31)) ++ encodeElems j (l.drop 31)



/-! ## A sample deployment, for instantiating the theorems -/

/-- The address `0x0000000000000000000000000000000000000001`. -/
def sampleAddress : Address :=
  { bytes := [0, 0, 0, 0, 0, 0, 0, 0, 0, 0, 0, 0, 0, 0, 0, 0, 0, 0, 0, 1], size := rfl }

/-- The minter of `cmd/dev-dispatch.go`: the mint contract
`0x998Cd2C603F2c8E52788bc7Ee9C39abFd8Abe131` on Sepolia. -/
def sampleMinter : minter :=
  { mintContract :=
      { bytes := [0x99, 0x8C, 0xd2, 0xC6, 0x03, 0xF2, 0xc8, 0xE5, 0x27, 0x88, 0xbc, 0x7E, 0xe9,
          0xC3, 0x9a, 0xbF, 0xd8, 0xAb, 0xe1, 0x31]
        size := rfl }
    chainID := 11155111 }

/-- A request with a well-formed address, a 64-digit key and no payload. -/
def sampleRequest : mintRequest :=
  { PKey := "4c0883a69102937d6231471b5dbb6204fe5129617082792ae468d01a3f362318"
    Address := "0x0000000000000000000000000000000000000001"
    Blob := [] }

/-- A chain and library that answer every call: the request body decodes to
`req`, an address is well formed when it has 42 characters, a key parses when
it has 64 characters, the signer holds `balance`, the head has base fee 10 and
no excess blob gas, the gas estimate is 21000 and the nonce is 0. -/
def sampleEnv (req : mintRequest) (balance : Int) : Env :=
  { body := DecodeResult.decoded req
    IsHexAddress := fun s => s.length == 42
    HexToECDSA := fun s => if s.length == 64 then some [1] else none
    PubkeyToAddress := fun _ => sampleAddress
    BalanceAt := fun _ => some balance
    HeaderByNumber := some { BaseFee := some 10, ExcessBlobGas := some 0 }
    CalcBlobFee := fun _ => 1
    BlobToCommitment := fun _ => some []
    ComputeBlobProof := fun _ _ => some []
    CalcBlobHashV1 := fun _ => []
    HexToAddress := fun _ => sampleAddress
    EstimateGas := fun _ => some 21000
    uint64OutOfRange := fun _ => 0
    NonceAt := fun _ => some 0
    signerHash := fun _ => []
    Sign := fun _ _ => some []
    WithSignature := fun tx sig => some { tx := tx, signature := sig }
    SendTransaction := fun _ => true
    txHashHex := fun _ => "0x00" }

/-- The sample deployment when the request body is not valid JSON. -/
def malformedBodyEnv : Env :=
  { sampleEnv sampleRequest 1 with body := DecodeResult.failed }

/-- The sample deployment when the chain client fails to estimate gas. -/
def gasFailureEnv : Env :=
  { sampleEnv sampleRequest 1 with EstimateGas := fun _ => none }

/-- A request whose address is not a hex address. -/
def badAddressRequest : mintRequest :=
  { sampleRequest with Address := "not-an-address" }

/-- A request with a well-formed address and an empty key. -/
def noKeyRequest : mintRequest :=
  { sampleRequest with PKey := "" }

/-! ## Lemmas on the chunking loop -/

theorem pad31_length (c : List Byte) (h : c.length ≤ 31) : (pad31 c).length = 31 := by
  simp [pad31]; omega

theorem encodeElems_length (j : Nat) (l : List Byte) : (encodeElems j l).length = 32 * j := by
  induction j generalizing l with
  | zero => simp [encodeElems]
  | succ j ih =>
    simp [encodeElems, ih, pad31_length]
    omega

theorem encodeElems_nil (j : Nat) : encodeElems j [] = List.replicate (32 * j) 0 := by
  induction j with
  | zero => simp [encodeElems]
  | succ j ih =>
    simp only [encodeElems, List.take_nil, List.drop_nil, ih, pad31, List.length_nil, List.nil_append]
    rw [show 32 * (j + 1) = 1 + (31 + 32 * j) by omega, List.replicate_add, List.replicate_add]
    simp

theorem slice_eq_take_drop (blob : List Byte) (r : Nat) :
    (blob.take (min (r + 31) blob.length)).drop r = (blob.drop r).take 31 := by
  rw [List.drop_take]
  have h : min (r + 31) blob.length - r = min 31 (blob.drop r).length := by
    simp only [List.length_drop]; omega
  rw [h, ← List.take_take, List.take_length]

theorem set_zero_at_boundary (pre : List Byte) (k : Nat) :
    (pre ++ List.replicate (k + 1) 0).set pre.length 0 = pre ++ List.replicate (k + 1) 0 := by
  rw [List.set_append]
  simp [List.replicate_succ]

theorem copySlice_into_zeros (pre c : List Byte) (m : Nat) (hc : c.length ≤ 31) :
    copySlice (pre ++ List.replicate (32 * (m + 1)) 0) (pre.length + 1) (pre.length + 1 + 31) c =
      (pre ++ (0 :: pad31 c)) ++ List.replicate (32 * m) 0 := by
  unfold copySlice pad31
  have hn : min (pre.length + 1 + 31 - (pre.length + 1)) c.length = c.length := by omega
  simp only [hn, List.take_length]
  have h1 : List.take (pre.length + 1) (pre ++ List.replicate (32 * (m + 1)) 0) = pre ++ [0] := by
    rw [List.take_append, show 32 * (m + 1) = 1 + (32 * m + 31) by omega, List.replicate_add]
    simp
  have h2 : List.drop (pre.length + 1 + c.length) (pre ++ List.replicate (32 * (m + 1)) 0) =
      List.replicate (31 - c.length) 0 ++ List.replicate (32 * m) 0 := by
    rw [Nat.add_assoc, List.drop_append, List.drop_replicate, ← List.replicate_add]
    congr 1
    omega
  rw [h1, h2]
  simp

theorem write32_step (blob pre : List Byte) (m r : Nat) (hr : r ≤ blob.length) :
    write32 blob { b := pre ++ List.replicate (32 * (m + 1)) 0, woffset := pre.length, roffset := r } =
      some { b := (pre ++ (0 :: pad31 ((blob.drop r).take 31))) ++ List.replicate (32 * m) 0,
             woffset := pre.length + 32,
             roffset := min (r + 31) blob.length } := by
  have hrend : (if r + 31 > blob.length then blob.length else r + 31) = min (r + 31) blob.length := by
    split <;> omega
  have hset := set_zero_at_boundary pre (32 * m + 31)
  rw [show 32 * m + 31 + 1 = 32 * (m + 1) by omega] at hset
  have hlen : (pre ++ List.replicate (32 * (m + 1)) 0).length = pre.length + 32 * (m + 1) := by
    simp
  have hc : ((blob.drop r).take 31).length ≤ 31 := by simp
  unfold write32
  simp only [hrend, hset, hlen, slice_eq_take_drop]
  rw [if_pos (by omega), if_pos (by omega), copySlice_into_zeros pre _ m hc]

theorem drop_min_length (blob : List Byte) (a : Nat) :
    blob.drop (min a blob.length) = blob.drop a := by
  rcases Nat.le_total a blob.length with h | h
  · rw [Nat.min_eq_left h]
  · rw [Nat.min_eq_right h, List.drop_length, List.drop_eq_nil_of_le h]

theorem iter_bound_step (L r k : Nat) (hlt : r < L)
    (h : 31 * k < L - min (r + 31) L + 31) : 31 * (k + 1) < L - r + 31 := by
  rcases Nat.le_total (r + 31) L with h1 | h1
  · rw [Nat.min_eq_left h1] at h; omega
  · rw [Nat.min_eq_right h1] at h; omega

theorem roffset_step (L r k : Nat) :
    min (min (r + 31) L + 31 * k) L = min (r + 31 * (k + 1)) L := by
  rcases Nat.le_total (r + 31) L with h1 | h1
  · rw [Nat.min_eq_left h1, show r + 31 + 31 * k = r + 31 * (k + 1) by omega]
  · rw [Nat.min_eq_right h1, Nat.min_eq_right (by omega), Nat.min_eq_right (by omega)]

theorem chunkLoop_run (blob : List Byte) (m : Nat) :
    ∀ (fuel : Nat) (pre : List Byte) (r n : Nat), r ≤ blob.length → m ≤ fuel →
      ∃ k, chunkLoop blob fuel
          { b := pre ++ List.replicate (32 * (m + 1)) 0, woffset := pre.length, roffset := r } n =
        LoopOutcome.finished
          { b := pre ++ encodeElems m (blob.drop r) ++ List.replicate 32 0,
            woffset := pre.length + 32 * k,
            roffset := min (r + 31 * k) blob.length } (n + k) ∧
        k ≤ m ∧ 31 * k < blob.length - r + 31 := by
  induction m with
  | zero =>
    intro fuel pre r n hr _
    refine ⟨0, ?_, Nat.le_refl 0, by omega⟩
    unfold chunkLoop
    rw [if_neg (by simp)]
    simp [encodeElems, Nat.min_eq_left hr]
  | succ m ih =>
    intro fuel pre r n hr hfuel
    rcases Nat.lt_or_ge r blob.length with hlt | hge
    · obtain ⟨f, rfl⟩ : ∃ f, fuel = f + 1 := ⟨fuel - 1, by omega⟩
      have hguard : r < blob.length ∧
          pre.length < (pre ++ List.replicate (32 * (m + 1 + 1)) 0).length - 32 := by
        refine ⟨hlt, ?_⟩
        simp only [List.length_append, List.length_replicate]
        omega
      obtain ⟨k, hk, hkm, hkl⟩ := ih f (pre ++ (0 :: pad31 ((blob.drop r).take 31)))
        (min (r + 31) blob.length) (n + 1) (Nat.min_le_right _ _) (by omega)
      have hplen : (pre ++ (0 :: pad31 ((blob.drop r).take 31))).length = pre.length + 32 := by
        simp [pad31_length]
      refine ⟨k + 1, ?_, by omega, iter_bound_step _ _ _ hlt hkl⟩
      unfold chunkLoop
      simp only [hguard, and_self, if_true]
      rw [write32_step blob pre (m + 1) r hr]
      simp only
      rw [← hplen, hk, hplen]
      congr 1
      · congr 1
        · simp only [encodeElems, drop_min_length, List.drop_drop, List.append_assoc,
            List.cons_append, Nat.add_comm 31 r]
        · omega
        · exact roffset_step _ _ _
      · omega
    · refine ⟨0, ?_, Nat.zero_le _, by omega⟩
      unfold chunkLoop
      rw [if_neg (by simp only [not_and]; intro h; omega)]
      have hnil : blob.drop r = [] := List.drop_eq_nil_of_le hge
      simp only [hnil, encodeElems_nil, Nat.mul_zero, Nat.add_zero, Nat.min_eq_left hr,
        List.append_assoc, ← List.replicate_add]
      rw [show 32 * (m + 1) + 32 = 32 * (m + 1 + 1) by omega]

theorem chunkLoop_init_run (blob : List Byte) (m fuel : Nat) (hm : m ≤ fuel) :
    ∃ k, chunkLoop blob fuel (chunkInit (32 * (m + 1))) 0 =
        LoopOutcome.finished
          { b := encodeElems m blob ++ List.replicate 32 0,
            woffset := 32 * k,
            roffset := min (31 * k) blob.length } k ∧
      k ≤ m ∧ 31 * k < blob.length + 31 := by
  obtain ⟨k, hk, hk1, hk2⟩ := chunkLoop_run blob m fuel [] 0 0 (Nat.zero_le _) hm
  refine ⟨k, ?_, hk1, by omega⟩
  simpa [chunkInit] using hk

theorem chunk_run (payload : List Byte) :
    ∃ k, chunk payload =
        LoopOutcome.finished
          { b := encodeElems 4095 payload ++ List.replicate 32 0,
            woffset := 32 * k,
            roffset := min (31 * k) payload.length } k ∧
      k ≤ 4095 ∧ 31 * k < payload.length + 31 :=
  chunkLoop_init_run payload 4095 4096 (by decide)

theorem chunkBlob_eq (payload : List Byte) :
    chunkBlob payload = some (encodeElems 4095 payload ++ List.replicate 32 0) := by
  obtain ⟨k, hk, -, -⟩ := chunk_run payload
  unfold chunkBlob
  rw [hk]

theorem payloadBytes_encodeElems (j : Nat) :
    ∀ (i : Nat) (l rest : List Byte),
      payloadBytes (j + i) (encodeElems j l ++ rest) =
        l.take (31 * j) ++ List.replicate (31 * j - l.length) 0 ++ payloadBytes i rest := by
  induction j with
  | zero => intro i l rest; simp [encodeElems]
  | succ j ih =>
    intro i l rest
    have hlen : (pad31 (l.take 31)).length = 31 := pad31_length _ (by simp)
    have htake : List.take 32 (0 :: pad31 (l.take 31) ++ (encodeElems j (l.drop 31) ++ rest)) =
        0 :: pad31 (l.take 31) := by
      rw [List.take_left']
      simp [hlen]
    have hdrop : List.drop 32 (0 :: pad31 (l.take 31) ++ (encodeElems j (l.drop 31) ++ rest)) =
        encodeElems j (l.drop 31) ++ rest := by
      rw [List.drop_left']
      simp [hlen]
    rw [show j + 1 + i = (j + i) + 1 by omega]
    simp only [payloadBytes, encodeElems, List.append_assoc]
    rw [htake, hdrop, ih]
    simp only [List.drop_succ_cons, List.drop_zero, List.length_drop, pad31, List.length_take]
    rcases Nat.le_total 31 l.length with h | h
    · rw [Nat.min_eq_left h, Nat.sub_self, List.replicate_zero, List.append_nil,
        show 31 * (j + 1) = 31 + 31 * j by omega, List.take_add,
        show 31 * j - (l.length - 31) = 31 + 31 * j - l.length by omega]
      simp only [List.append_assoc]
    · rw [Nat.min_eq_right h, List.take_of_length_le h,
        List.take_of_length_le (show l.length ≤ 31 * (j + 1) by omega),
        List.drop_eq_nil_of_le h, List.take_nil, List.nil_append,
        show 31 * j - (l.length - 31) = 31 * j by omega,
        show 31 * (j + 1) - l.length = (31 - l.length) + 31 * j by omega, List.replicate_add]
      simp only [List.append_assoc]

theorem payloadBytes_chunkBlob (payload : List Byte) :
    payloadBytes 4096 (encodeElems 4095 payload ++ List.replicate 32 0) =
      payload.take 126945 ++ List.replicate (126945 - payload.length) 0 ++ List.replicate 31 0 := by
  have h := payloadBytes_encodeElems 4095 1 payload (List.replicate 32 0)
  rw [show 4095 + 1 = 4096 by decide, show 31 * 4095 = 126945 by decide] at h
  rw [h]
  have hlast : payloadBytes 1 (List.replicate 32 (0 : Byte)) = List.replicate 31 0 := by
    decide
  rw [hlast]

theorem encodeElems_first_byte (j : Nat) :
    ∀ (k : Nat) (l rest : List Byte), k < j → (encodeElems j l ++ rest)[32 * k]? = some 0 := by
  induction j with
  | zero => intro k l rest hk; omega
  | succ j ih =>
    intro k l rest hk
    cases k with
    | zero => simp [encodeElems]
    | succ k =>
      have hlen : (0 :: pad31 (l.take 31)).length = 32 := by
        simp [pad31_length]
      simp only [encodeElems, List.append_assoc]
      rw [List.getElem?_append_right (by rw [hlen]; omega), hlen,
        show 32 * (k + 1) - 32 = 32 * k by omega]
      exact ih k _ rest (by omega)

theorem last_element_zero (enc : List Byte) (k : Nat) (h : enc.length = 32 * k) :
    (enc ++ List.replicate 32 0)[32 * k]? = some 0 := by
  rw [List.getElem?_append_right (by omega), h, Nat.sub_self]
  rfl

theorem take_min_length (l : List Byte) (c : Nat) : l.take (min l.length c) = l.take c := by
  rcases Nat.le_total l.length c with h | h
  · rw [Nat.min_eq_left h, List.take_length, List.take_of_length_le h]
  · rw [Nat.min_eq_right h]

theorem lost_byte (n m : Nat) (x : Byte) (hm : m = n + 1) :
    ((List.replicate m x).take n ++
        List.replicate (n - (List.replicate m x).length) 0 ++ List.replicate 31 0)[n]? =
      some 0 := by
  subst hm
  rw [List.append_assoc, List.getElem?_append_right (by simp)]
  simp


/-! ## Lemmas on the handler -/


theorem BitLen_eq_zero (x : Int) : BitLen x = 0 ↔ x = 0 := by
  unfold BitLen
  constructor
  · intro h
    cases hn : x.natAbs with
    | zero => exact Int.natAbs_eq_zero.mp hn
    | succ n =>
      rw [hn] at h
      simp [bitLenNat] at h
  · intro h
    subst h
    rfl

theorem handle_bad_address (m : minter) (env : Env) (req : mintRequest)
    (hdec : decode { PKey := "", Address := "", Blob := [] } env.body = (none, req))
    (haddr : env.IsHexAddress req.Address = false) :
    handle m env = failWith 2 [] := by
  unfold handle
  simp only [hdec, haddr]
  rfl

theorem handle_no_key (m : minter) (env : Env) (req : mintRequest)
    (hdec : decode { PKey := "", Address := "", Blob := [] } env.body = (none, req))
    (haddr : env.IsHexAddress req.Address = true) (hkey : req.PKey = "") :
    handle m env = failWith 3 [] := by
  unfold handle
  simp only [hdec, haddr, hkey]
  rfl

theorem handle_zero_balance (m : minter) (env : Env) (req : mintRequest) (key : List Byte)
    (hdec : decode { PKey := "", Address := "", Blob := [] } env.body = (none, req))
    (haddr : env.IsHexAddress req.Address = true) (hpk : req.PKey.utf8ByteSize ≠ 0)
    (hkey : env.HexToECDSA req.PKey = some key)
    (hbal : env.BalanceAt (env.PubkeyToAddress key) = some 0) :
    handle m env = failWith 6 [ClientCall.BalanceAt] := by
  unfold handle
  simp only [hdec, haddr, hkey, hbal, if_neg hpk]
  rfl

theorem handleSubmit_not_six (m : minter) (env : Env) (key : List Byte) (signerAddress : Address)
    (priorityFee maxFee blobFeeCap : Int) (hashes : List (List Byte)) (sidecar : BlobTxSidecar)
    (data : List Byte) (calls : List ClientCall) :
    responseCode (handleSubmit m env key signerAddress priorityFee maxFee blobFeeCap hashes
      sidecar data calls) ≠ some 6 := by
  unfold handleSubmit
  simp only
  repeat' split
  all_goals simp [responseCode, failWith, codeField]

theorem handleBuild_not_six (m : minter) (env : Env) (req : mintRequest) (key : List Byte)
    (signerAddress : Address) (calls : List ClientCall) :
    responseCode (handleBuild m env req key signerAddress calls) ≠ some 6 := by
  unfold handleBuild
  simp only
  repeat' split
  all_goals first
    | exact handleSubmit_not_six _ _ _ _ _ _ _ _ _ _ _
    | simp [responseCode, failWith, codeField]

theorem handle_funded_not_six (m : minter) (env : Env) (req : mintRequest) (key : List Byte)
    (balance : Int)
    (hdec : decode { PKey := "", Address := "", Blob := [] } env.body = (none, req))
    (haddr : env.IsHexAddress req.Address = true) (hpk : req.PKey.utf8ByteSize ≠ 0)
    (hkey : env.HexToECDSA req.PKey = some key)
    (hbal : env.BalanceAt (env.PubkeyToAddress key) = some balance) (hne : balance ≠ 0) :
    responseCode (handle m env) ≠ some 6 := by
  have hbit : BitLen balance ≠ 0 := fun h => hne ((BitLen_eq_zero balance).mp h)
  unfold handle
  simp only [hdec, haddr, hkey, hbal, if_neg hpk, if_neg hbit]
  exact handleBuild_not_six _ _ _ _ _ _


theorem chunk_finishes (payload : List Byte) :
    ∃ st n, chunk payload = LoopOutcome.finished st n := by
  obtain ⟨k, hk, -, -⟩ := chunk_run payload
  exact ⟨_, _, hk⟩

theorem handleBuild_gas_failure (m : minter) (env : Env) (req : mintRequest) (key : List Byte)
    (signerAddress : Address) (calls : List ClientCall) (h : Header) (baseFee : Int)
    (excessBlobGas : Nat) (c proof : List Byte)
    (hh : env.HeaderByNumber = some h) (hb : h.BaseFee = some baseFee)
    (he : h.ExcessBlobGas = some excessBlobGas)
    (hc : ∀ blob, env.BlobToCommitment blob = some c)
    (hp : ∀ blob, env.ComputeBlobProof blob c = some proof)
    (hg : ∀ msg, env.EstimateGas msg = none) :
    handleBuild m env req key signerAddress calls =
      failWith 10 (calls ++ [ClientCall.HeaderByNumber, ClientCall.EstimateGas]) := by
  obtain ⟨st, n, hk⟩ := chunk_finishes (if req.Blob.length = 0 then defaultBlobBytes else req.Blob)
  unfold handleBuild
  simp only [hh, hb, he, hk, hc, hp]
  unfold handleSubmit
  simp only [hg, List.append_assoc, List.singleton_append]

theorem handle_gas_failure (m : minter) (env : Env) (req : mintRequest) (key : List Byte)
    (balance : Int) (h : Header) (baseFee : Int) (excessBlobGas : Nat) (c proof : List Byte)
    (hdec : decode { PKey := "", Address := "", Blob := [] } env.body = (none, req))
    (haddr : env.IsHexAddress req.Address = true) (hpk : req.PKey.utf8ByteSize ≠ 0)
    (hkey : env.HexToECDSA req.PKey = some key)
    (hbal : env.BalanceAt (env.PubkeyToAddress key) = some balance) (hne : BitLen balance ≠ 0)
    (hh : env.HeaderByNumber = some h) (hb : h.BaseFee = some baseFee)
    (he : h.ExcessBlobGas = some excessBlobGas)
    (hc : ∀ blob, env.BlobToCommitment blob = some c)
    (hp : ∀ blob, env.ComputeBlobProof blob c = some proof)
    (hg : ∀ msg, env.EstimateGas msg = none) :
    handle m env =
      failWith 10 [ClientCall.BalanceAt, ClientCall.HeaderByNumber, ClientCall.EstimateGas] := by
  unfold handle
  simp only [hdec, haddr, hkey, hbal, if_neg hpk, if_neg hne]
  exact handleBuild_gas_failure m env req key _ _ h baseFee excessBlobGas c proof hh hb he hc hp hg

/-! ## Lemmas on the gas margin -/

theorem bitLenNat_zero (fuel : Nat) : bitLenNat fuel 0 = 0 := by
  cases fuel <;> simp [bitLenNat]

theorem lt_two_pow_bitLenNat (fuel : Nat) : ∀ n, n ≤ fuel → n < 2 ^ bitLenNat fuel n := by
  induction fuel with
  | zero =>
    intro n hn
    obtain rfl : n = 0 := by omega
    simp [bitLenNat]
  | succ f ih =>
    intro n hn
    unfold bitLenNat
    by_cases h0 : n = 0
    · simp [h0]
    · rw [if_neg h0, Nat.pow_succ]
      have := ih (n / 2) (by omega)
      omega

theorem two_pow_bitLenNat_le (fuel : Nat) :
    ∀ n, n ≤ fuel → 0 < n → 2 ^ (bitLenNat fuel n - 1) ≤ n := by
  induction fuel with
  | zero => intro n hn hpos; omega
  | succ f ih =>
    intro n hn hpos
    unfold bitLenNat
    rw [if_neg (by omega), Nat.add_sub_cancel]
    by_cases h1 : n / 2 = 0
    · rw [h1, bitLenNat_zero]
      simpa using hpos
    · have hlt := lt_two_pow_bitLenNat f (n / 2) (by omega)
      have hge := ih (n / 2) (by omega) (by omega)
      have hb : bitLenNat f (n / 2) ≠ 0 := by
        intro hb
        rw [hb] at hlt
        omega
      obtain ⟨b, hb'⟩ : ∃ b, bitLenNat f (n / 2) = b + 1 :=
        ⟨_, (Nat.succ_pred_eq_of_ne_zero hb).symm⟩
      rw [hb'] at hge ⊢
      rw [Nat.add_sub_cancel] at hge
      rw [Nat.pow_succ]
      omega

theorem bitLenNat_le_of_lt (n k : Nat) (h : n < 2 ^ k) : bitLenNat n n ≤ k := by
  by_cases h0 : n = 0
  · rw [h0, bitLenNat_zero]; exact Nat.zero_le _
  · by_contra hk
    have hge := two_pow_bitLenNat_le n n (Nat.le_refl _) (by omega)
    have : 2 ^ k ≤ 2 ^ (bitLenNat n n - 1) := Nat.pow_le_pow_right (by decide) (by omega)
    omega

theorem lt_bitLenNat_of_le (n k : Nat) (h : 2 ^ k ≤ n) : k < bitLenNat n n := by
  by_contra hk
  have hlt := lt_two_pow_bitLenNat n n (Nat.le_refl _)
  have : 2 ^ bitLenNat n n ≤ 2 ^ k := Nat.pow_le_pow_right (by decide) (by omega)
  omega

theorem roundToDouble_exact (n : Nat) (h : n < 2 ^ 53) : roundToDouble n = n := by
  unfold roundToDouble
  simp only
  rw [if_pos (bitLenNat_le_of_lt n 53 h)]

theorem roundAt_scaled (s g : Nat) (hs1 : 1 ≤ s) (hs2 : s ≤ 51)
    (h1 : 2 ^ (s + 52) ≤ g * 5404319552844595) (h2 : g * 5404319552844595 < 2 ^ (s + 53)) :
    roundAt s (g * 5404319552844595) / 2 ^ 52 = 6 * g / 5 := by
  unfold roundAt
  interval_cases s <;> norm_num at h1 h2 ⊢ <;> split <;> omega

theorem scaledDouble_eq (g : Nat) (hg : g < 3752999689475414) :
    scaledDouble g / 2 ^ 52 = 6 * g / 5 := by
  have hexact : roundToDouble g = g := roundToDouble_exact g (by norm_num; omega)
  unfold scaledDouble onePointTwo
  rw [hexact]
  rcases Nat.lt_or_ge g 2 with hsmall | hbig
  · interval_cases g <;> decide
  · have hlow : 2 ^ 53 ≤ g * 5404319552844595 := by norm_num; omega
    have hhigh : g * 5404319552844595 < 2 ^ 104 := by norm_num; omega
    have hL1 := lt_bitLenNat_of_le _ 53 hlow
    have hL2 := bitLenNat_le_of_lt _ 104 hhigh
    have hlt := lt_two_pow_bitLenNat _ _ (Nat.le_refl (g * 5404319552844595))
    have hge := two_pow_bitLenNat_le _ _ (Nat.le_refl (g * 5404319552844595)) (by omega)
    unfold roundToDouble
    simp only
    rw [if_neg (by omega)]
    generalize hLen : bitLenNat (g * 5404319552844595) (g * 5404319552844595) = len at *
    obtain ⟨s, rfl⟩ : ∃ s, len = s + 53 := ⟨len - 53, by omega⟩
    rw [Nat.add_sub_cancel]
    rw [show s + 53 - 1 = s + 52 by omega] at hge
    exact roundAt_scaled s g (by omega) (by omega) hge hlt

/-! ## The chunker: losslessness, leading zero bytes, totality -/

/-- Supporting fact for claim C1: the payload is recovered up to 4095 elements
of 31 bytes, the elements the loop can reach. -/
theorem chunk_lossless_reachable (payload : List Byte) :
    ∃ blob, chunkBlob payload = some blob ∧
      (payloadBytes 4096 blob).take (min payload.length (4095 * 31)) =
        payload.take (min payload.length (4095 * 31)) := by
  refine ⟨_, chunkBlob_eq payload, ?_⟩
  rw [payloadBytes_chunkBlob, take_min_length, show 4095 * 31 = 126945 by decide,
    List.append_assoc]
  rcases Nat.le_total payload.length 126945 with h | h
  · rw [Nat.min_eq_left h, List.take_of_length_le h, List.take_left']
    rfl
  · rw [Nat.min_eq_right h, List.take_left']
    rw [List.length_take, Nat.min_eq_left h]

/-- Claim C1, evaluated at a payload of 126946 bytes `0x01`, which is shorter
than the capacity of 4096 * 31 = 126976 bytes: the loop stops after 4095
elements, so byte 126945 of the payload is not in the blob; the non-padding
bytes of the blob have a zero there and differ from the payload within the
first `min L capacity` bytes. -/
theorem chunk_loses_last_element :
    ∃ blob, chunkBlob (List.replicate 126946 1) = some blob ∧
      (payloadBytes 4096 blob)[126945]? = some 0 ∧
      (List.replicate 126946 (1 : Byte))[126945]? = some 1 ∧
      (payloadBytes 4096 blob).take (min 126946 blobCapacity) ≠
        (List.replicate 126946 1).take (min 126946 blobCapacity) := by
  have hdec : (payloadBytes 4096
      (encodeElems 4095 (List.replicate 126946 1) ++ List.replicate 32 0))[126945]? = some 0 := by
    rw [payloadBytes_chunkBlob]
    exact lost_byte 126945 126946 1 (by decide)
  have hsrc : (List.replicate 126946 (1 : Byte))[126945]? = some 1 := by
    rw [List.getElem?_replicate, if_pos (by decide)]
  refine ⟨_, chunkBlob_eq _, hdec, hsrc, ?_⟩
  intro heq
  have hmin : min 126946 blobCapacity = 126946 := by decide
  have h := congrArg (fun l => l[126945]?) heq
  simp only [hmin, List.getElem?_take, if_pos (show 126945 < 126946 by decide)] at h
  rw [hdec, hsrc] at h
  exact absurd h (by decide)

/-- Claim C2: for every payload, of any length, the chunking loop leaves a blob
of 131072 bytes in which the first byte of each of the 4096 elements is zero:
`blob[32 * k] = 0` for every `k < 4096`. -/
theorem first_byte_zero (payload : List Byte) (k : Nat) (hk : k < 4096) :
    ∃ blob, chunkBlob payload = some blob ∧ blob.length = blobLen ∧ blob[32 * k]? = some 0 := by
  refine ⟨_, chunkBlob_eq payload, ?_, ?_⟩
  · rw [List.length_append, encodeElems_length, List.length_replicate]
    decide
  · rcases Nat.lt_or_ge k 4095 with h | h
    · exact encodeElems_first_byte 4095 k payload _ h
    · obtain rfl : k = 4095 := by omega
      exact last_element_zero _ 4095 (encodeElems_length 4095 payload)

/-- Claim C2 at the payload `[1, 2, 3]` and element 5. -/
theorem first_byte_zero_witness :
    5 < 4096 ∧
      ∃ blob, chunkBlob [1, 2, 3] = some blob ∧ blob.length = blobLen ∧
        blob[32 * 5]? = some 0 :=
  ⟨by decide, first_byte_zero [1, 2, 3] 5 (by decide)⟩

/-- Claim C9: for every payload the chunking loop finishes, without running out
of range in any `write32` (the model panics on an index or slice bound out of
range), after at most `min (ceil (L / 31)) 4096` iterations, and the blob is
still 131072 bytes long. -/
theorem chunk_total (payload : List Byte) :
    ∃ s n, chunk payload = LoopOutcome.finished s n ∧
      n ≤ min ((payload.length + 30) / 31) 4096 ∧ s.b.length = blobLen := by
  obtain ⟨k, hk, hk1, hk2⟩ := chunk_run payload
  refine ⟨_, k, hk, ?_, ?_⟩
  · have h1 : k ≤ (payload.length + 30) / 31 := by omega
    exact Nat.le_min.mpr ⟨h1, by omega⟩
  · show (encodeElems 4095 payload ++ List.replicate 32 0).length = blobLen
    rw [List.length_append, encodeElems_length, List.length_replicate]
    decide

/-! ## Failure codes -/

/-- Claim C3, evaluated at two requests: one whose body is not valid JSON and
one that passes every stage up to gas estimation, which fails. Both get the
code 10, so the code does not tell the two conditions apart. -/
theorem decode_and_gas_failure_share_code :
    responseCode (handle sampleMinter malformedBodyEnv) = some 10 ∧
      (handle sampleMinter malformedBodyEnv).calls = [] ∧
      responseCode (handle sampleMinter gasFailureEnv) = some 10 ∧
      (handle sampleMinter gasFailureEnv).calls =
        [ClientCall.BalanceAt, ClientCall.HeaderByNumber, ClientCall.EstimateGas] := by
  have h1 : handle sampleMinter malformedBodyEnv = failWith 10 [] := by decide
  have h2 : handle sampleMinter gasFailureEnv =
      failWith 10 [ClientCall.BalanceAt, ClientCall.HeaderByNumber, ClientCall.EstimateGas] :=
    handle_gas_failure sampleMinter gasFailureEnv sampleRequest [1] 1
      { BaseFee := some 10, ExcessBlobGas := some 0 } 10 0 [] [] rfl (by decide) (by decide)
      (by decide) rfl (by decide) rfl rfl rfl (fun _ => rfl) (fun _ => rfl) (fun _ => rfl)
  rw [h1, h2]
  exact ⟨rfl, rfl, rfl, rfl⟩

/-! ## The envelope's status -/

/-- Claim C4 fails for an unset code: a response whose `Code` is 0 is served
without `WriteHeader(500)`, so with HTTP status 200, and the code is changed
to 1, the success code, which is what the logger receives. -/
theorem unset_code_served_as_success :
    (ServeHTTP ⟨some (JsonValue.err ⟨0⟩), none, none⟩).writeHeader = none ∧
      httpStatus (ServeHTTP ⟨some (JsonValue.err ⟨0⟩), none, none⟩) = 200 ∧
      (ServeHTTP ⟨some (JsonValue.err ⟨0⟩), none, none⟩).logged = some (1, none) := by
  decide

/-- Claim C4 as amended: let `c` be the `Code` field of a non-nil response, 0
when the field is absent. When `c` is 1 or 0 `ServeHTTP` does not call
`WriteHeader`, the status is 200 and the code it logs is 1; for every other
`c` it writes status 500 and logs `c`. -/
theorem ServeHTTP_status (v : JsonValue) (forLog cacheControl : Option String) (c : Int)
    (hc : (codeField v).getD 0 = c) :
    (c = 1 ∨ c = 0 →
        (ServeHTTP ⟨some v, forLog, cacheControl⟩).writeHeader = none ∧
        httpStatus (ServeHTTP ⟨some v, forLog, cacheControl⟩) = 200 ∧
        (ServeHTTP ⟨some v, forLog, cacheControl⟩).logged = some (1, forLog)) ∧
      (c ≠ 1 ∧ c ≠ 0 →
        (ServeHTTP ⟨some v, forLog, cacheControl⟩).writeHeader = some 500 ∧
        httpStatus (ServeHTTP ⟨some v, forLog, cacheControl⟩) = 500 ∧
        (ServeHTTP ⟨some v, forLog, cacheControl⟩).logged = some (c, forLog)) := by
  subst hc
  cases hv : codeField v with
  | none => simp [ServeHTTP, httpStatus, hv]
  | some c =>
    by_cases h0 : c = 0
    · subst h0; simp [ServeHTTP, httpStatus, hv]
    · by_cases h1 : c = 1
      · subst h1; simp [ServeHTTP, httpStatus, hv]
      · simp [ServeHTTP, httpStatus, hv, h0, h1]

/-- Claim C4 as amended, at an `*Error` with code 6 and at one with code 0. -/
theorem ServeHTTP_status_witness :
    httpStatus (ServeHTTP ⟨some (JsonValue.err ⟨6⟩), none, none⟩) = 500 ∧
      httpStatus (ServeHTTP ⟨some (JsonValue.err ⟨0⟩), none, none⟩) = 200 :=
  ⟨((ServeHTTP_status (JsonValue.err { Code := 6 }) none none 6 rfl).2
      ⟨by decide, by decide⟩).2.1,
    ((ServeHTTP_status (JsonValue.err { Code := 0 }) none none 0 rfl).1 (Or.inr rfl)).2.1⟩

/-! ## Validation and the balance gate -/

/-- Claim C5: when decoding returns no error and leaves the request `req`, a
`req.Address` that is not a hex address gives the code 2, and a well-formed
address with an empty `req.PKey` gives the code 3; in both cases `handle`
makes no chain-client call. -/
theorem validation_precedes_network (m : minter) (env : Env) (req : mintRequest)
    (hdec : decode { PKey := "", Address := "", Blob := [] } env.body = (none, req)) :
    (env.IsHexAddress req.Address = false →
        responseCode (handle m env) = some 2 ∧ (handle m env).calls = []) ∧
      (env.IsHexAddress req.Address = true → req.PKey = "" →
        responseCode (handle m env) = some 3 ∧ (handle m env).calls = []) := by
  constructor
  · intro haddr
    rw [handle_bad_address m env req hdec haddr]
    exact ⟨rfl, rfl⟩
  · intro haddr hkey
    rw [handle_no_key m env req hdec haddr hkey]
    exact ⟨rfl, rfl⟩

/-- Claim C5 at a request with the address `not-an-address` and at a request
with a well-formed address and no key. -/
theorem validation_precedes_network_witness :
    (responseCode (handle sampleMinter (sampleEnv badAddressRequest 1)) = some 2 ∧
        (handle sampleMinter (sampleEnv badAddressRequest 1)).calls = []) ∧
      (responseCode (handle sampleMinter (sampleEnv noKeyRequest 1)) = some 3 ∧
        (handle sampleMinter (sampleEnv noKeyRequest 1)).calls = []) :=
  ⟨(validation_precedes_network sampleMinter (sampleEnv badAddressRequest 1) badAddressRequest
      rfl).1 (by decide),
    (validation_precedes_network sampleMinter (sampleEnv noKeyRequest 1) noKeyRequest
      rfl).2 (by decide) rfl⟩

/-- Claim C6 fails on the logger: for the sample request and a signer with
balance zero the response has code 6 and status 500 is written, but the
status argument of `LogRequest` is the response code 6, not 500. -/
theorem zero_balance_logs_code_six :
    serveMint sampleMinter (sampleEnv sampleRequest 0) =
        some ⟨some 500, [("Content-Type", "application/json")], some (JsonValue.err ⟨6⟩),
          some (6, none)⟩ ∧
      (serveMint sampleMinter (sampleEnv sampleRequest 0)).map HttpEffects.logged ≠
        some (some (500, none)) := by
  decide

/-- Claim C6 as amended: for a request that decodes, has a well-formed address
and a non-empty key that parses, if the balance query succeeds with balance
zero then the response has code 6, `ServeHTTP` writes status 500 and calls the
logger with the response code 6 as status, and the balance query is the only
chain-client call; if the balance is not zero the response code is not 6. -/
theorem zero_balance_gate (m : minter) (env : Env) (req : mintRequest) (key : List Byte)
    (balance : Int)
    (hdec : decode { PKey := "", Address := "", Blob := [] } env.body = (none, req))
    (haddr : env.IsHexAddress req.Address = true) (hpk : req.PKey.utf8ByteSize ≠ 0)
    (hkey : env.HexToECDSA req.PKey = some key)
    (hbal : env.BalanceAt (env.PubkeyToAddress key) = some balance) :
    (balance = 0 →
        responseCode (handle m env) = some 6 ∧
        (handle m env).calls = [ClientCall.BalanceAt] ∧
        ∃ eff, serveMint m env = some eff ∧ eff.body = some (JsonValue.err ⟨6⟩) ∧
          eff.writeHeader = some 500 ∧ httpStatus eff = 500 ∧ eff.logged = some (6, none)) ∧
      (balance ≠ 0 → responseCode (handle m env) ≠ some 6) := by
  constructor
  · intro hzero
    subst hzero
    have h := handle_zero_balance m env req key hdec haddr hpk hkey hbal
    refine ⟨by rw [h]; rfl, by rw [h]; rfl, ?_⟩
    unfold serveMint
    rw [h]
    exact ⟨_, rfl, rfl, rfl, rfl, rfl⟩
  · intro hne
    exact handle_funded_not_six m env req key balance hdec haddr hpk hkey hbal hne

/-- Claim C6 as amended, at the sample request with balance 0 and with
balance 1. -/
theorem zero_balance_gate_witness :
    (responseCode (handle sampleMinter (sampleEnv sampleRequest 0)) = some 6 ∧
        (handle sampleMinter (sampleEnv sampleRequest 0)).calls = [ClientCall.BalanceAt]) ∧
      responseCode (handle sampleMinter (sampleEnv sampleRequest 1)) ≠ some 6 :=
  ⟨⟨((zero_balance_gate sampleMinter (sampleEnv sampleRequest 0) sampleRequest [1] 0 rfl
        (by decide) (by decide) (by decide) rfl).1 rfl).1,
      ((zero_balance_gate sampleMinter (sampleEnv sampleRequest 0) sampleRequest [1] 0 rfl
        (by decide) (by decide) (by decide) rfl).1 rfl).2.1⟩,
    (zero_balance_gate sampleMinter (sampleEnv sampleRequest 1) sampleRequest [1] 1 rfl
      (by decide) (by decide) (by decide) rfl).2 (by decide)⟩

/-! ## Fee cap and call data -/

/-- Claim C7: for a header base fee `b ≥ 0` the fee cap is `2 * b + priorityFee`
with `priorityFee = 10^9`; it is at least `b`, it is strictly smaller than the
fee cap of any larger base fee, and the base fee in the header is unchanged
after the computation. -/
theorem feeCap_formula (b b2 : Int) (hb : 0 ≤ b) (hlt : b < b2) :
    feeCap b = 2 * b + 10 ^ 9 ∧
      bigGet (feeCaps [b] 0).store (feeCaps [b] 0).priorityFee = 10 ^ 9 ∧
      feeCap b < feeCap b2 ∧ b ≤ feeCap b ∧ baseFeeAfter b = b := by
  have hf : ∀ x : Int, feeCap x = 2 * x + 10 ^ 9 := by
    intro x
    simp [feeCap, feeCaps, bigNew, bigSet, bigMul, bigAdd, bigGet, GWei]
    ring
  refine ⟨hf b, ?_, ?_, ?_, ?_⟩
  · simp [feeCaps, bigNew, bigSet, bigMul, bigAdd, bigGet, GWei]
  · rw [hf b, hf b2]; omega
  · rw [hf b]; omega
  · simp [baseFeeAfter, feeCaps, bigNew, bigSet, bigMul, bigAdd, bigGet]

/-- Claim C7 at the base fees 10 and 11. -/
theorem feeCap_formula_witness :
    feeCap 10 = 1000000020 ∧ feeCap 10 < feeCap 11 ∧ baseFeeAfter 10 = 10 :=
  ⟨(feeCap_formula 10 11 (by decide) (by decide)).1,
    (feeCap_formula 10 11 (by decide) (by decide)).2.2.1,
    (feeCap_formula 10 11 (by decide) (by decide)).2.2.2.2⟩

/-- Claim C8: for every 20-byte destination address the call data has 36
bytes: the selector `75 5E DD 17`, twelve zero bytes, then the 20 bytes of the
address in order. -/
theorem callData_layout (a : Address) :
    (callData a).length = 36 ∧
      (callData a).take 4 = [0x75, 0x5E, 0xDD, 0x17] ∧
      ((callData a).drop 4).take 12 = List.replicate 12 0 ∧
      (callData a).drop 16 = a.bytes := by
  have h : (List.range 12).foldl (fun d _ => d ++ [(0 : Byte)]) mintToSelector =
      [0x75, 0x5E, 0xDD, 0x17, 0, 0, 0, 0, 0, 0, 0, 0, 0, 0, 0, 0] := by decide
  have hc : callData a =
      [0x75, 0x5E, 0xDD, 0x17, 0, 0, 0, 0, 0, 0, 0, 0, 0, 0, 0, 0] ++ a.bytes := by
    unfold callData
    simp only [h]
  rw [hc]
  refine ⟨?_, ?_, ?_, ?_⟩
  · simp [a.size]
  · rfl
  · rfl
  · rfl

/-! ## Gas margin -/

set_option maxRecDepth 8000

/-- Claim C10 fails for large estimates: at `g = 2^53 + 1` the conversion to
`float64` rounds `g` down to `2^53` and the gas limit is 10808639105689190,
one less than `6 * g / 5`; at `g = 3752999689475414` the product rounds up and
the gas limit is 4503599627370497, one more than `6 * g / 5`. -/
theorem gasLimit_differs_from_floor :
    gasLimit (fun _ => 0) 9007199254740993 = 10808639105689190 ∧
      6 * 9007199254740993 / 5 = 10808639105689191 ∧
      gasLimit (fun _ => 0) 3752999689475414 = 4503599627370497 ∧
      6 * 3752999689475414 / 5 = 4503599627370496 := by
  decide

/-- Claim C10 as amended: for every gas estimate `g` below 3752999689475414
the gas limit `uint64(float64(g) * 1.2)` is `6 * g / 5` rounded down, whatever
the platform does with out-of-range conversions, and it is not below `g`. -/
theorem gasLimit_margin (outOfRange : Nat → Nat) (g : Nat) (hg : g < 3752999689475414) :
    gasLimit outOfRange g = 6 * g / 5 ∧ g ≤ gasLimit outOfRange g := by
  have h := scaledDouble_eq g hg
  have hval : gasLimit outOfRange g = 6 * g / 5 := by
    unfold gasLimit
    simp only [h]
    rw [if_pos (by norm_num; omega)]
  rw [hval]
  exact ⟨rfl, by omega⟩

/-- Claim C10 as amended, at the estimate 21000, which gives 25200. -/
theorem gasLimit_margin_witness :
    21000 < 3752999689475414 ∧ gasLimit (fun _ => 0) 21000 = 25200 ∧
      21000 ≤ gasLimit (fun _ => 0) 21000 :=
  ⟨by decide, (gasLimit_margin (fun _ => 0) 21000 (by decide)).1.trans (by decide),
    (gasLimit_margin (fun _ => 0) 21000 (by decide)).2⟩

end Blobz
